import Mathlib

/-!
Verification of the conditional-touch audit rule of GrandscaleDB
(`src/models/update_rules.py`) over a shallow embedding of the data model.

The repository declares twelve ORM model classes; nine of them are
registered with a `before_update` listener `skip_updated_at` that reverts
the pending `updated_at` value to its loaded value whenever none of the
columns in the per-table configuration `REAL_UPDATE_COLS` changed between
load and the pending write.

Column values are an arbitrary type `V` with decidable equality; an entity
instance is its model class together with its loaded (last persisted) and
pending (in-memory) attribute valuations.  Attribute access through the ORM
inspection interface can fail when the attribute does not exist on the
class, so the embedded hook returns an `Option`.
-/

namespace GrandscaleDB

/-- A declarative model class: its `__tablename__` and the column attribute
names it declares in the source (`src/models/*.py`), without the timestamp
mixin contribution. -/
structure ModelClass where
  tablename : String
  ownAttrs : List String
deriving DecidableEq

/-- Modelled from the spec: `src/models/mixins.py` (the `TimestampMixin`
imported by every model module) is absent from the source tree.  Per the
spec, every tracked entity "carries an automatically managed `updated_at`
timestamp set on creation and intended to advance on every update"; we model
the mixin as contributing `created_at` and `updated_at` column attributes. -/
def timestampMixinAttrs : List String := ["created_at", "updated_at"]

/-- All column attribute names of a model class: those declared in the class
body followed by the timestamp-mixin columns. -/
def attrs (m : ModelClass) : List String := m.ownAttrs ++ timestampMixinAttrs

/-- `Project` in `src/models/project.py`. -/
def Project : ModelClass :=
  { tablename := "project"
    ownAttrs := ["project_id", "org_id", "name", "description",
      "requirements_text", "status", "is_active", "date_created",
      "date_updated", "completed_at", "deleted_at", "client_pm_id",
      "our_pm_id"] }

/-- `File` in `src/models/project.py`. -/
def File : ModelClass :=
  { tablename := "file"
    ownAttrs := ["file_id", "name", "description", "uploaded_by", "status",
      "file_type", "date_created", "date_updated", "is_active", "deleted_at",
      "size_bytes", "mime_type", "project_id", "active_version_id"] }

/-- `FileVersion` in `src/models/project.py`. -/
def FileVersion : ModelClass :=
  { tablename := "file_version"
    ownAttrs := ["version_id", "file_id", "version_number", "storage_path",
      "checksum", "size_bytes", "mime_type", "uploaded_by", "uploaded_at",
      "is_active", "source_file_version_id", "generation_method",
      "llm_model", "llm_params"] }

/-- `User` in `src/models/organization.py`. -/
def User : ModelClass :=
  { tablename := "user"
    ownAttrs := ["user_id", "email", "org_id", "availability",
      "language_expertise", "skill_score", "skill_level",
      "qa_approval_rate", "completed_task_count", "is_active"] }

/-- `Organization` in `src/models/organization.py`. -/
def Organization : ModelClass :=
  { tablename := "organization"
    ownAttrs := ["org_id", "name", "description", "is_active", "deleted_at"] }

/-- `Role` in `src/models/organization.py`. -/
def Role : ModelClass :=
  { tablename := "role"
    ownAttrs := ["role_id", "name", "description"] }

/-- `Permission` in `src/models/organization.py`. -/
def Permission : ModelClass :=
  { tablename := "permission"
    ownAttrs := ["permission_id", "name", "description"] }

/-- `AnnotationJob` in `src/models/annotation.py`. -/
def AnnotationJob : ModelClass :=
  { tablename := "annotation_job"
    ownAttrs := ["job_id", "file_id", "project_id", "language", "priority",
      "status", "review_status", "is_active", "deleted_at", "due_date",
      "completed_at"] }

/-- `Assignment` in `src/models/annotation.py`. -/
def Assignment : ModelClass :=
  { tablename := "assignment"
    ownAttrs := ["assignment_id", "job_id", "user_id", "role", "status",
      "is_active", "completed_at", "assigned_at", "updated_at"] }

/-- `Review` in `src/models/annotation.py`. -/
def Review : ModelClass :=
  { tablename := "review"
    ownAttrs := ["review_id", "job_id", "reviewer_id", "status", "feedback",
      "is_active", "deleted_at"] }

/-- `ExportLog` in `src/models/event.py`. -/
def ExportLog : ModelClass :=
  { tablename := "export_log"
    ownAttrs := ["export_id", "project_id", "requested_by", "storage_path",
      "checksum", "status", "date_requested", "date_completed"] }

/-- `EventLog` in `src/models/event.py`. -/
def EventLog : ModelClass :=
  { tablename := "event_log"
    ownAttrs := ["event_id", "entity_type", "entity_id", "event_type",
      "user_id", "event_metadata", "event_time", "file_id",
      "file_version_id", "project_id", "job_id", "export_id", "review_id"] }

/-- `REAL_UPDATE_COLS` in `src/models/update_rules.py`: the static map from
table name to the set of "meaningful" column names, embedded as an
association list with the sets in source order. -/
def REAL_UPDATE_COLS : List (String × List String) :=
  [("project", ["status", "name", "description", "client_pm_id",
      "our_pm_id", "is_active"]),
   ("file", ["status", "name", "description", "active_version_id",
      "is_active"]),
   ("file_version", ["is_active", "generation_method", "llm_model",
      "llm_params"]),
   ("user", ["email", "org_id", "availability", "language_expertise",
      "skill_score", "skill_level", "qa_approval_rate", "is_active"]),
   ("annotation_job", ["status", "review_status", "priority", "language",
      "due_date", "is_active"]),
   ("assignment", ["status", "role", "user_id"]),
   ("review", ["status", "feedback", "is_active"]),
   ("export_log", ["status", "storage_path", "checksum"]),
   ("organization", ["name", "description", "is_active"])]

/-- An in-memory entity instance mid-update: its model class, the attribute
values as loaded from (or last persisted to) the database, and the pending
in-memory attribute values about to be flushed. -/
structure Instance (V : Type) where
  model : ModelClass
  loaded : String → V
  pending : String → V

variable {V : Type} [DecidableEq V]

/-- `state.attrs[c].history.has_changes()`: whether attribute `c` of the
instance changed between load and the pending write.  The lookup fails
(`none`) when `c` is not an attribute of the model class; otherwise the ORM
history compares the pending value with the loaded one. -/
def hasChanges (inst : Instance V) (c : String) : Option Bool :=
  if c ∈ attrs inst.model then
    some (decide (inst.pending c ≠ inst.loaded c))
  else
    none

/-- `any(state.attrs[c].history.has_changes() for c in cols)`: Python's
`any` over a generator short-circuits, so attribute lookups after the first
changed column are never performed. -/
def anyHasChanges (inst : Instance V) : List String → Option Bool
  | [] => some false
  | c :: cs => do
      let b ← hasChanges inst c
      if b then pure true else anyHasChanges inst cs

/-- `state.attrs[c].loaded_value`: the value attribute `c` had when the
instance was loaded; fails when `c` is not an attribute of the class. -/
def loadedValue (inst : Instance V) (c : String) : Option V :=
  if c ∈ attrs inst.model then some (inst.loaded c) else none

/-- `skip_updated_at` in `src/models/update_rules.py`: look up the
meaningful-column set for the instance's table name (empty when the table is
not configured); when the set is non-empty and none of its columns changed,
overwrite the pending `updated_at` with its loaded value; otherwise leave
the instance untouched. -/
def skip_updated_at (inst : Instance V) : Option (Instance V) :=
  let cols := (REAL_UPDATE_COLS.lookup inst.model.tablename).getD []
  if cols.isEmpty then
    some inst
  else do
    let changed ← anyHasChanges inst cols
    if changed then
      pure inst
    else do
      let lv ← loadedValue inst "updated_at"
      pure { inst with
        pending := fun c => if c = "updated_at" then lv else inst.pending c }

/-- The models the `for model in [...]` loop of
`src/models/update_rules.py` registers the `before_update` listener on. -/
def registeredModels : List ModelClass :=
  [Project, File, FileVersion, User, AnnotationJob,
   Assignment, Review, ExportLog, Organization]

/-- The mapper-level lifecycle events relevant to the hook registration. -/
inductive MapperEvent where
  | before_insert
  | before_update
deriving DecidableEq

/-- The `event.listen(model, "before_update", skip_updated_at)` calls of
`src/models/update_rules.py`: each registered model paired with the event
its listener is attached to. -/
def registrations : List (ModelClass × MapperEvent) :=
  registeredModels.map (fun m => (m, MapperEvent.before_update))

/-- Modelled from the spec: the persistence layer's dispatch of lifecycle
events is framework code outside the source tree.  Per the spec, "new-row
inserts are out of scope — the rule applies to updates of already-persisted
rows only": a `before_update` listener fires only when an UPDATE of an
already-persisted row is flushed, never for an INSERT of a new row. -/
def firesOnNewRowInsert : MapperEvent → Bool
  | MapperEvent.before_insert => true
  | MapperEvent.before_update => false

/-- Modelled from the spec: the "automatically managed" audit timestamp
(`TimestampMixin`, absent from the source tree) advances `updated_at` to the
current time on every update unless the hook overwrote the pending value.
We model the mechanism as marking the pending `updated_at` with the current
time before the hook runs; the hook's overwrite then replaces that mark. -/
def autoBump (now : V) (inst : Instance V) : Instance V :=
  { inst with
    pending := fun c => if c = "updated_at" then now else inst.pending c }

/-- Modelled from the spec: one update transaction on an already-persisted
row.  The auto-update-timestamp mechanism marks the pending `updated_at`
with the current time, the `before_update` hook runs, and the flush persists
the resulting pending values as the new loaded values. -/
def updateTransaction (now : V) (inst : Instance V) : Option (Instance V) :=
  (skip_updated_at (autoBump now inst)).map
    (fun r => { r with loaded := r.pending })

/-! ### Sample instances used by the witnesses -/

/-- An Organization row loaded with every column 0 whose pending write
changes only `name` (a meaningful column). -/
def orgNameChanged : Instance Nat :=
  { model := Organization
    loaded := fun _ => 0
    pending := fun c => if c = "name" then 1 else 0 }

/-- An Organization row whose pending write changes `name` (meaningful) and
`deleted_at` (not meaningful). -/
def orgMixedChanged : Instance Nat :=
  { model := Organization
    loaded := fun _ => 0
    pending := fun c => if c = "name" then 1 else if c = "deleted_at" then 2 else 0 }

/-- A Project row loaded with every column 0 whose pending write changes
only `status`. -/
def projStatusChanged : Instance Nat :=
  { model := Project
    loaded := fun _ => 0
    pending := fun c => if c = "status" then 1 else 0 }

/-- A Project row loaded with every column 0 whose pending write changes
only `description`. -/
def projDescChanged : Instance Nat :=
  { model := Project
    loaded := fun _ => 0
    pending := fun c => if c = "description" then 1 else 0 }

/-- An EventLog row (a model class outside the hook's configuration) whose
pending write changes `entity_id`. -/
def eventLogChanged : Instance Nat :=
  { model := EventLog
    loaded := fun _ => 0
    pending := fun c => if c = "entity_id" then 1 else 0 }

/-! ### Helper lemmas about the embedded hook -/

theorem anyHasChanges_eq_any (inst : Instance V) (cols : List String)
    (h : ∀ c ∈ cols, c ∈ attrs inst.model) :
    anyHasChanges inst cols
      = some (cols.any fun c => decide (inst.pending c ≠ inst.loaded c)) := by
  induction cols with
  | nil => rfl
  | cons c cs ih =>
      have hc : c ∈ attrs inst.model := h c (List.mem_cons_self c cs)
      have hcs : ∀ x ∈ cs, x ∈ attrs inst.model :=
        fun x hx => h x (List.mem_cons_of_mem c hx)
      simp only [anyHasChanges, hasChanges, if_pos hc, List.any_cons]
      by_cases hch : inst.pending c ≠ inst.loaded c
      · simp [hch]
      · simp [hch, ih hcs]

theorem anyHasChanges_some_false (inst : Instance V) (cols : List String)
    (h : anyHasChanges inst cols = some false) :
    ∀ c ∈ cols, c ∈ attrs inst.model ∧ inst.pending c = inst.loaded c := by
  induction cols with
  | nil => intro c hc; cases hc
  | cons c cs ih =>
      intro x hx
      by_cases hc : c ∈ attrs inst.model
      · simp only [anyHasChanges, hasChanges, if_pos hc, Option.bind_eq_bind,
          Option.some_bind] at h
        by_cases hch : inst.pending c ≠ inst.loaded c
        · simp [hch] at h
        · rw [decide_eq_false hch] at h
          simp only [Bool.false_eq_true, if_false] at h
          rcases List.mem_cons.mp hx with rfl | hx'
          · exact ⟨hc, not_not.mp hch⟩
          · exact ih h x hx'
      · simp [anyHasChanges, hasChanges, if_neg hc] at h

theorem skip_updated_at_of_unconfigured (inst : Instance V)
    (h : REAL_UPDATE_COLS.lookup inst.model.tablename = none) :
    skip_updated_at inst = some inst := by
  simp [skip_updated_at, h]

theorem skip_updated_at_of_changed (inst : Instance V) (cols : List String)
    (hlk : REAL_UPDATE_COLS.lookup inst.model.tablename = some cols)
    (hsub : ∀ c ∈ cols, c ∈ attrs inst.model)
    (hany : cols.any (fun c => decide (inst.pending c ≠ inst.loaded c)) = true) :
    skip_updated_at inst = some inst := by
  have hne : cols.isEmpty = false := by
    rcases List.any_eq_true.mp hany with ⟨c, hc, _⟩
    cases cols with
    | nil => cases hc
    | cons d ds => rfl
  simp only [skip_updated_at, hlk, Option.getD_some, hne, Bool.false_eq_true,
    if_false, anyHasChanges_eq_any inst cols hsub, Option.bind_eq_bind,
    Option.some_bind, hany, if_true]
  rfl

theorem skip_updated_at_of_unchanged (inst : Instance V) (cols : List String)
    (hlk : REAL_UPDATE_COLS.lookup inst.model.tablename = some cols)
    (hne : cols.isEmpty = false)
    (hsub : ∀ c ∈ cols, c ∈ attrs inst.model)
    (hup : "updated_at" ∈ attrs inst.model)
    (hany : cols.any (fun c => decide (inst.pending c ≠ inst.loaded c)) = false) :
    skip_updated_at inst
      = some { inst with
          pending := fun c =>
            if c = "updated_at" then inst.loaded "updated_at"
            else inst.pending c } := by
  simp only [skip_updated_at, hlk, Option.getD_some, hne, Bool.false_eq_true,
    if_false, anyHasChanges_eq_any inst cols hsub, Option.bind_eq_bind,
    Option.some_bind, hany, loadedValue, hup, if_true]
  rfl

theorem loadedValue_some (inst : Instance V) (c : String) (v : V)
    (h : loadedValue inst c = some v) :
    c ∈ attrs inst.model ∧ v = inst.loaded c := by
  by_cases hc : c ∈ attrs inst.model
  · simp only [loadedValue, if_pos hc, Option.some_inj] at h
    exact ⟨hc, h.symm⟩
  · simp [loadedValue, if_neg hc] at h

theorem skip_updated_at_frame (inst r : Instance V)
    (h : skip_updated_at inst = some r) :
    r.model = inst.model ∧ r.loaded = inst.loaded ∧
      ∀ c, c ≠ "updated_at" → r.pending c = inst.pending c := by
  simp only [skip_updated_at] at h
  split at h
  · cases h
    exact ⟨rfl, rfl, fun c _ => rfl⟩
  · cases hb : anyHasChanges inst
        ((REAL_UPDATE_COLS.lookup inst.model.tablename).getD []) with
    | none => rw [hb] at h; cases h
    | some b =>
        rw [hb] at h
        simp only [Option.bind_eq_bind, Option.some_bind] at h
        cases b with
        | true =>
            cases h
            exact ⟨rfl, rfl, fun c _ => rfl⟩
        | false =>
            simp only [Bool.false_eq_true, if_false] at h
            cases hlv : loadedValue inst "updated_at" with
            | none => rw [hlv] at h; cases h
            | some lv =>
                rw [hlv] at h
                simp only [Option.some_bind] at h
                cases h
                refine ⟨rfl, rfl, fun c hc => ?_⟩
                simp only [if_neg hc]

theorem skip_updated_at_total (inst : Instance V)
    (hsub : ∀ c ∈ (REAL_UPDATE_COLS.lookup inst.model.tablename).getD [],
        c ∈ attrs inst.model)
    (hup : "updated_at" ∈ attrs inst.model) :
    ∃ r, skip_updated_at inst = some r := by
  cases hlk : REAL_UPDATE_COLS.lookup inst.model.tablename with
  | none => exact ⟨inst, skip_updated_at_of_unconfigured inst hlk⟩
  | some cols =>
      rw [hlk] at hsub
      simp only [Option.getD_some] at hsub
      cases hne : cols.isEmpty with
      | true =>
          refine ⟨inst, ?_⟩
          simp [skip_updated_at, hlk, hne]
      | false =>
          cases hany : cols.any
              (fun c => decide (inst.pending c ≠ inst.loaded c)) with
          | true =>
              exact ⟨inst, skip_updated_at_of_changed inst cols hlk hsub hany⟩
          | false =>
              exact ⟨_,
                skip_updated_at_of_unchanged inst cols hlk hne hsub hup hany⟩

theorem registered_subset_and_total (inst : Instance V)
    (h : inst.model ∈ registeredModels) :
    (∀ c ∈ (REAL_UPDATE_COLS.lookup inst.model.tablename).getD [],
        c ∈ attrs inst.model) ∧
    ∃ r, skip_updated_at inst = some r := by
  have hfacts : (∀ c ∈ (REAL_UPDATE_COLS.lookup inst.model.tablename).getD [],
      c ∈ attrs inst.model) ∧ "updated_at" ∈ attrs inst.model := by
    simp only [registeredModels, List.mem_cons, List.not_mem_nil,
      or_false] at h
    rcases h with h | h | h | h | h | h | h | h | h <;> rw [h] <;> decide
  exact ⟨hfacts.1, skip_updated_at_total inst hfacts.1 hfacts.2⟩

theorem skip_updated_at_idem (inst r : Instance V)
    (h : skip_updated_at inst = some r) : skip_updated_at r = some r := by
  simp only [skip_updated_at] at h ⊢
  split at h
  case isTrue hempty =>
    cases h
    rw [if_pos hempty]
  case isFalse hempty =>
    cases hb : anyHasChanges inst
        ((REAL_UPDATE_COLS.lookup inst.model.tablename).getD []) with
    | none => rw [hb] at h; cases h
    | some b =>
        rw [hb] at h
        simp only [Option.bind_eq_bind, Option.some_bind] at h
        cases b with
        | true =>
            cases h
            rw [if_neg hempty, hb]
            rfl
        | false =>
            simp only [Bool.false_eq_true, if_false] at h
            cases hlv : loadedValue inst "updated_at" with
            | none => rw [hlv] at h; cases h
            | some lv =>
                rw [hlv] at h
                simp only [Option.some_bind] at h
                cases h
                rcases loadedValue_some inst "updated_at" lv hlv with ⟨hupattr, hlveq⟩
                have hall := anyHasChanges_some_false inst _ hb
                set q : String → V :=
                  fun c => if c = "updated_at" then lv else inst.pending c with hq
                have hr2 : anyHasChanges
                    { model := inst.model, loaded := inst.loaded, pending := q }
                    ((REAL_UPDATE_COLS.lookup inst.model.tablename).getD [])
                    = some false := by
                  rw [anyHasChanges_eq_any
                    { model := inst.model, loaded := inst.loaded, pending := q }
                    _ (fun c hc => (hall c hc).1)]
                  congr 1
                  rw [List.any_eq_false]
                  intro c hc
                  simp only [decide_eq_true_eq, not_not, hq]
                  by_cases hcu : c = "updated_at"
                  · subst hcu
                    simp [hlveq]
                  · simp only [if_neg hcu]
                    exact (hall c hc).2
                rw [if_neg hempty, hr2]
                simp only [Option.bind_eq_bind, Option.some_bind,
                  Bool.false_eq_true, if_false]
                have hlv2 : loadedValue
                    { model := inst.model, loaded := inst.loaded, pending := q }
                    "updated_at" = some (inst.loaded "updated_at") := by
                  simp [loadedValue, hupattr]
                rw [hlv2]
                simp only [Option.some_bind, Option.some_inj]
                have hqq : (fun c =>
                    if c = "updated_at" then inst.loaded "updated_at" else q c)
                    = q := by
                  funext c
                  by_cases hcu : c = "updated_at"
                  · subst hcu
                    simp [hq, hlveq]
                  · simp [hq, if_neg hcu]
                rw [hqq]
                rfl

theorem list_any_congr {α : Type} (l : List α) (p q : α → Bool)
    (h : ∀ a ∈ l, p a = q a) : l.any p = l.any q := by
  induction l with
  | nil => rfl
  | cons a as ih =>
      simp only [List.any_cons, h a (List.mem_cons_self a as),
        ih (fun x hx => h x (List.mem_cons_of_mem a hx))]

theorem autoBump_pending_mem (now : V) (inst : Instance V) (c : String)
    (h : c ≠ "updated_at") :
    (autoBump now inst).pending c = inst.pending c := by
  simp [autoBump, if_neg h]

theorem updateTransaction_updated_at (inst : Instance V) (cols : List String)
    (now : V)
    (hlk : REAL_UPDATE_COLS.lookup inst.model.tablename = some cols)
    (hne : cols ≠ [])
    (hnu : "updated_at" ∉ cols)
    (hsub : ∀ c ∈ cols, c ∈ attrs inst.model)
    (hupattr : "updated_at" ∈ attrs inst.model) :
    ∃ res, updateTransaction now inst = some res ∧
      res.loaded "updated_at" =
        (if cols.any (fun c => decide (inst.pending c ≠ inst.loaded c)) then now
         else inst.loaded "updated_at") ∧
      res.loaded = res.pending := by
  have hbp : ∀ c ∈ cols, (autoBump now inst).pending c = inst.pending c := by
    intro c hc
    exact autoBump_pending_mem now inst c (fun hcu => hnu (hcu ▸ hc))
  have hanyeq : (cols.any fun c =>
        decide ((autoBump now inst).pending c ≠ (autoBump now inst).loaded c))
      = cols.any fun c => decide (inst.pending c ≠ inst.loaded c) := by
    apply list_any_congr
    intro c hc
    rw [hbp c hc]
    rfl
  cases hany : cols.any (fun c => decide (inst.pending c ≠ inst.loaded c)) with
  | true =>
      have hskip := skip_updated_at_of_changed (autoBump now inst) cols hlk
        hsub (hanyeq.trans hany)
      refine ⟨{ autoBump now inst with loaded := (autoBump now inst).pending },
        ?_, ?_, rfl⟩
      · simp only [updateTransaction, hskip, Option.map_some']
      · simp [autoBump]
  | false =>
      have hisE : cols.isEmpty = false := by
        cases cols with
        | nil => exact absurd rfl hne
        | cons a as => rfl
      have hskip := skip_updated_at_of_unchanged (autoBump now inst) cols hlk
        hisE hsub hupattr (hanyeq.trans hany)
      refine ⟨{ model := inst.model
                loaded := fun c => if c = "updated_at" then inst.loaded "updated_at"
                  else (autoBump now inst).pending c
                pending := fun c => if c = "updated_at" then inst.loaded "updated_at"
                  else (autoBump now inst).pending c }, ?_, ?_, rfl⟩
      · simp only [updateTransaction, hskip, Option.map_some']
        rfl
      · simp

/-! ### The claims -/

/-- C3: the claim that the file entity type's configured meaningful-column
set excludes `description` (while organization's includes `name` and
`description`) is false: `REAL_UPDATE_COLS["file"]` contains
`description`. -/
theorem C3_counterexample :
    ¬ ("description" ∉ (REAL_UPDATE_COLS.lookup File.tablename).getD [] ∧
       "name" ∈ (REAL_UPDATE_COLS.lookup Organization.tablename).getD [] ∧
       "description" ∈ (REAL_UPDATE_COLS.lookup Organization.tablename).getD []) := by
  decide

/-- C3 (amended): the configured meaningful-column set for the file entity
type includes `description`, and the organization entity type's set includes
both `name` and `description`. -/
theorem C3_file_set_includes_description :
    "description" ∈ (REAL_UPDATE_COLS.lookup File.tablename).getD [] ∧
    "name" ∈ (REAL_UPDATE_COLS.lookup Organization.tablename).getD [] ∧
    "description" ∈ (REAL_UPDATE_COLS.lookup Organization.tablename).getD [] := by
  decide

/-- C6: the hook is idempotent: running `skip_updated_at` a second time on
the state produced by a first (successful or failed) run gives exactly the
result of the single run, so the final `updated_at` is the same. -/
theorem C6_hook_idempotent (inst : Instance V) :
    (skip_updated_at inst).bind skip_updated_at = skip_updated_at inst := by
  cases h : skip_updated_at inst with
  | none => rfl
  | some r =>
      simp only [Option.some_bind]
      exact skip_updated_at_idem inst r h

/-- C7: the hook's only possible effect on the entity instance is rewriting
the single field `updated_at`: the model class, every loaded value, and
every pending value of a column other than `updated_at` are unchanged (and
the configuration `REAL_UPDATE_COLS` is an immutable constant the hook only
reads). -/
theorem C7_frame_only_updated_at (inst r : Instance V)
    (h : skip_updated_at inst = some r) :
    r.model = inst.model ∧ r.loaded = inst.loaded ∧
      ∀ c, c ≠ "updated_at" → r.pending c = inst.pending c :=
  skip_updated_at_frame inst r h

/-- C7 witness: the frame property evaluated at a concrete Organization
instance whose pending write changes `name`. -/
theorem C7_frame_witness :
    orgNameChanged.model = orgNameChanged.model ∧
    orgNameChanged.loaded = orgNameChanged.loaded ∧
      ∀ c, c ≠ "updated_at" →
        orgNameChanged.pending c = orgNameChanged.pending c :=
  C7_frame_only_updated_at orgNameChanged orgNameChanged (by rfl)

/-- C8: the hook is total on tracked entities: for every registered model
class, every column name in its configured meaningful-column set is an
attribute of the class, so the per-column history lookup cannot fail and the
hook returns a result for every instance of a registered model. -/
theorem C8_hook_total_on_registered (inst : Instance V)
    (h : inst.model ∈ registeredModels) :
    (∀ c ∈ (REAL_UPDATE_COLS.lookup inst.model.tablename).getD [],
        c ∈ attrs inst.model) ∧
    ∃ r, skip_updated_at inst = some r :=
  registered_subset_and_total inst h

/-- C8 witness: totality evaluated at a concrete Organization instance. -/
theorem C8_hook_total_witness :
    (∀ c ∈ (REAL_UPDATE_COLS.lookup orgNameChanged.model.tablename).getD [],
        c ∈ attrs orgNameChanged.model) ∧
    ∃ r, skip_updated_at orgNameChanged = some r :=
  C8_hook_total_on_registered orgNameChanged (by decide)

/-- C9: every registration attaches the hook to the `before_update` event,
which (per the spec's persistence-layer contract) never fires for a new-row
insert; and on any instance of a registered model the hook returns a result,
so it never fails the surrounding update transaction. -/
theorem C9_update_only_and_never_fails (p : ModelClass × MapperEvent)
    (inst : Instance V) (hp : p ∈ registrations) (hm : inst.model = p.1) :
    firesOnNewRowInsert p.2 = false ∧ ∃ r, skip_updated_at inst = some r := by
  have hpm : p.1 ∈ registeredModels ∧ p.2 = MapperEvent.before_update := by
    simp only [registrations, List.mem_map] at hp
    rcases hp with ⟨m, hm', rfl⟩
    exact ⟨hm', rfl⟩
  refine ⟨by rw [hpm.2]; rfl, ?_⟩
  exact (registered_subset_and_total inst (hm ▸ hpm.1)).2

/-- C9 witness: the registration of Project, evaluated on a concrete
instance. -/
theorem C9_update_only_witness :
    firesOnNewRowInsert (Project, MapperEvent.before_update).2 = false ∧
    ∃ r, skip_updated_at projStatusChanged = some r :=
  C9_update_only_and_never_fails (Project, MapperEvent.before_update)
    projStatusChanged (by decide) (by rfl)

/-- C10: the hook is registered for exactly the nine model classes Project,
File, FileVersion, User, AnnotationJob, Assignment, Review, ExportLog and
Organization; each registered class's table name is a key of
`REAL_UPDATE_COLS` with a non-empty meaningful-column set (so the empty-set
no-action branch is unreachable for registered models), while EventLog, Role
and Permission are neither registered nor configured. -/
theorem C10_registration_matches_configuration :
    registeredModels = [Project, File, FileVersion, User, AnnotationJob,
      Assignment, Review, ExportLog, Organization] ∧
    registeredModels.length = 9 ∧
    (∀ m ∈ registeredModels,
      (REAL_UPDATE_COLS.lookup m.tablename).isSome ∧
      (REAL_UPDATE_COLS.lookup m.tablename).getD [] ≠ []) ∧
    EventLog ∉ registeredModels ∧ Role ∉ registeredModels ∧
    Permission ∉ registeredModels ∧
    REAL_UPDATE_COLS.lookup EventLog.tablename = none ∧
    REAL_UPDATE_COLS.lookup Role.tablename = none ∧
    REAL_UPDATE_COLS.lookup Permission.tablename = none := by
  decide

/-- C1: for a tracked entity type (a key of `REAL_UPDATE_COLS`), one update
transaction changes the persisted `updated_at` if and only if at least one
column of the configured meaningful-column set changed between load and the
pending write; in particular an update touching only columns outside the set
leaves `updated_at` at its previously persisted value. -/
theorem C1_updated_at_changes_iff_meaningful (inst : Instance V)
    (cols : List String) (now : V)
    (hlk : REAL_UPDATE_COLS.lookup inst.model.tablename = some cols)
    (hne : cols ≠ [])
    (hnu : "updated_at" ∉ cols)
    (hsub : ∀ c ∈ cols, c ∈ attrs inst.model)
    (hupattr : "updated_at" ∈ attrs inst.model)
    (hnow : now ≠ inst.loaded "updated_at") :
    ∃ res, updateTransaction now inst = some res ∧
      (res.loaded "updated_at" ≠ inst.loaded "updated_at"
        ↔ ∃ c ∈ cols, inst.pending c ≠ inst.loaded c) := by
  obtain ⟨res, htx, hval, _⟩ :=
    updateTransaction_updated_at inst cols now hlk hne hnu hsub hupattr
  refine ⟨res, htx, ?_⟩
  cases hany : cols.any (fun c => decide (inst.pending c ≠ inst.loaded c)) with
  | true =>
      rw [hany] at hval
      simp only [if_true] at hval
      rw [hval]
      constructor
      · intro _
        rcases List.any_eq_true.mp hany with ⟨c, hc, hd⟩
        exact ⟨c, hc, of_decide_eq_true hd⟩
      · intro _
        exact hnow
  | false =>
      rw [hany] at hval
      simp only [Bool.false_eq_true, if_false] at hval
      rw [hval]
      constructor
      · intro hcontr
        exact absurd rfl hcontr
      · rintro ⟨c, hc, hcne⟩
        have hall := List.any_eq_false.mp hany c hc
        simp only [decide_eq_true_eq, not_not] at hall
        exact absurd hall hcne

/-- C1 witness: a Project whose pending write changes only `status`,
committed at time 5 over a baseline of 0. -/
theorem C1_witness :
    ∃ res, updateTransaction 5 projStatusChanged = some res ∧
      (res.loaded "updated_at" ≠ projStatusChanged.loaded "updated_at"
        ↔ ∃ c ∈ ["status", "name", "description", "client_pm_id", "our_pm_id",
            "is_active"],
          projStatusChanged.pending c ≠ projStatusChanged.loaded c) :=
  C1_updated_at_changes_iff_meaningful projStatusChanged
    ["status", "name", "description", "client_pm_id", "our_pm_id", "is_active"]
    5 (by decide) (by decide) (by decide) (by decide) (by decide) (by decide)

/-- C2 counterexample: the claim says an update changing only `description`
on a Project leaves `updated_at` at its previous value because `description`
is outside the project's configured set; in the code `description` is in
`REAL_UPDATE_COLS["project"]`, and the concrete run (baseline 0, current
time 5, only `description` changed) commits `updated_at = 5 ≠ 0`. -/
theorem C2_counterexample :
    "description" ∈ (REAL_UPDATE_COLS.lookup Project.tablename).getD [] ∧
    (updateTransaction 5 projDescChanged).map (fun r => r.loaded "updated_at")
      = some 5 ∧
    projDescChanged.loaded "updated_at" = 0 ∧ (5 : Nat) ≠ 0 := by
  refine ⟨by decide, by decide, by decide, by decide⟩

/-- C2 (amended): for a Project row with `updated_at = T0`, an update in
which the caller changes only the `description` column results, after the
hook runs and the update commits, in `updated_at` advanced to the current
time (so no longer `T0`), because `description` IS in the project entity
type's configured meaningful-column set. -/
theorem C2_description_only_update_bumps (inst : Instance V) (now : V)
    (hm : inst.model = Project)
    (honly : ∀ c, c ≠ "description" → inst.pending c = inst.loaded c)
    (hdesc : inst.pending "description" ≠ inst.loaded "description")
    (hnow : now ≠ inst.loaded "updated_at") :
    ∃ res, updateTransaction now inst = some res ∧
      res.loaded "updated_at" = now ∧
      res.loaded "updated_at" ≠ inst.loaded "updated_at" := by
  have hlk : REAL_UPDATE_COLS.lookup inst.model.tablename
      = some ["status", "name", "description", "client_pm_id", "our_pm_id",
        "is_active"] := by
    rw [hm]
    decide
  have hsub : ∀ c ∈ ["status", "name", "description", "client_pm_id",
      "our_pm_id", "is_active"], c ∈ attrs inst.model := by
    rw [hm]; decide
  have hupattr : "updated_at" ∈ attrs inst.model := by
    rw [hm]; decide
  have hany : (["status", "name", "description", "client_pm_id", "our_pm_id",
      "is_active"].any fun c => decide (inst.pending c ≠ inst.loaded c))
      = true :=
    List.any_eq_true.mpr ⟨"description", by decide, decide_eq_true hdesc⟩
  obtain ⟨res, htx, hval, _⟩ :=
    updateTransaction_updated_at inst _ now hlk (by decide) (by decide)
      hsub hupattr
  rw [hany] at hval
  simp only [if_true] at hval
  exact ⟨res, htx, hval, by rw [hval]; exact hnow⟩

/-- C2 witness: the amended claim evaluated at a concrete Project whose
pending write changes only `description`, committed at time 7. -/
theorem C2_witness :
    ∃ res, updateTransaction 7 projDescChanged = some res ∧
      res.loaded "updated_at" = 7 ∧
      res.loaded "updated_at" ≠ projDescChanged.loaded "updated_at" :=
  C2_description_only_update_bumps projDescChanged 7 (by rfl)
    (fun c hc => by simp [projDescChanged, hc])
    (by decide) (by decide)

/-- C4: for an entity whose table name is not a key of `REAL_UPDATE_COLS`,
the hook takes no action, so an update transaction advances `updated_at`
per the default auto-timestamp behavior. -/
theorem C4_unconfigured_default_bump (inst : Instance V) (now : V)
    (hlk : REAL_UPDATE_COLS.lookup inst.model.tablename = none)
    (hnow : now ≠ inst.loaded "updated_at") :
    skip_updated_at inst = some inst ∧
    ∃ res, updateTransaction now inst = some res ∧
      res.loaded "updated_at" = now ∧
      res.loaded "updated_at" ≠ inst.loaded "updated_at" := by
  refine ⟨skip_updated_at_of_unconfigured inst hlk, ?_⟩
  have hskip : skip_updated_at (autoBump now inst) = some (autoBump now inst) :=
    skip_updated_at_of_unconfigured (autoBump now inst) hlk
  have hval : ({ autoBump now inst with
      loaded := (autoBump now inst).pending } : Instance V).loaded "updated_at"
      = now := by
    simp [autoBump]
  exact ⟨{ autoBump now inst with loaded := (autoBump now inst).pending },
    by simp only [updateTransaction, hskip, Option.map_some'],
    hval, by rw [hval]; exact hnow⟩

/-- C4 witness: an EventLog row (unconfigured table) with `entity_id`
changed, committed at time 3. -/
theorem C4_witness :
    skip_updated_at eventLogChanged = some eventLogChanged ∧
    ∃ res, updateTransaction 3 eventLogChanged = some res ∧
      res.loaded "updated_at" = 3 ∧
      res.loaded "updated_at" ≠ eventLogChanged.loaded "updated_at" :=
  C4_unconfigured_default_bump eventLogChanged 3 (by decide) (by decide)

/-- C5: for a configured entity type, when at least one meaningful column
changed the hook leaves the pending state untouched and the update
transaction advances `updated_at` to the current time — including updates
that also change non-meaningful columns. -/
theorem C5_meaningful_change_advances (inst : Instance V) (cols : List String)
    (c0 : String) (now : V)
    (hlk : REAL_UPDATE_COLS.lookup inst.model.tablename = some cols)
    (hnu : "updated_at" ∉ cols)
    (hsub : ∀ c ∈ cols, c ∈ attrs inst.model)
    (hupattr : "updated_at" ∈ attrs inst.model)
    (hc0 : c0 ∈ cols)
    (hchg : inst.pending c0 ≠ inst.loaded c0) :
    skip_updated_at inst = some inst ∧
    ∃ res, updateTransaction now inst = some res ∧
      res.loaded "updated_at" = now := by
  have hany : (cols.any fun c => decide (inst.pending c ≠ inst.loaded c))
      = true :=
    List.any_eq_true.mpr ⟨c0, hc0, decide_eq_true hchg⟩
  have hne : cols ≠ [] := by
    rintro rfl
    cases hc0
  obtain ⟨res, htx, hval, _⟩ :=
    updateTransaction_updated_at inst cols now hlk hne hnu hsub hupattr
  rw [hany] at hval
  simp only [if_true] at hval
  exact ⟨skip_updated_at_of_changed inst cols hlk hsub hany, res, htx, hval⟩

/-- C5 witness: an Organization whose pending write changes `name`
(meaningful) and `deleted_at` (not meaningful), committed at time 9. -/
theorem C5_witness :
    skip_updated_at orgMixedChanged = some orgMixedChanged ∧
    ∃ res, updateTransaction 9 orgMixedChanged = some res ∧
      res.loaded "updated_at" = 9 :=
  C5_meaningful_change_advances orgMixedChanged
    ["name", "description", "is_active"] "name" 9
    (by decide) (by decide) (by decide) (by decide) (by decide) (by decide)

end GrandscaleDB
